import Mathlib

/-!
Verification of the Sudoku solving engine (`sudoku.py`): candidate-tracking
board model, deduction rules, backtracking search, undo/redo history and the
board factory.  Python objects are embedded shallowly: the mutable 2-D cell
array becomes a function `Nat → Nat → Cell`, Python `set`s of small integers
become `Finset Nat`, raised exceptions become `Except` results carrying the
board state at raise time, and the class-level `Cell.MAX_VALUE` global is
threaded as an explicit `maxV` parameter (read by cell operations, written
only by the factory).  Unbounded `while` loops are given explicit fuel.
-/

namespace SudokuSpec

/-- Error kinds raised by the engine (Python raises `AttributeError`,
`ValueError` or `KeyError` with distinguishing messages; the spec names the
relevant kinds `NotEditable`, `InvalidValue`, `OutOfRange`, `InvalidFormat`). -/
inductive SErr where
  | notEditable       -- "Cell not editable"
  | invalidValue      -- "Incorrect value (... not in <0,MAX>)"
  | outOfRange        -- "Incorrect row or column" / "Row or column out of range"
  | emptyClue         -- "Cell not editable and without value" (Cell.__init__)
  | invalidFormat     -- ValueError("Incorrect input string") (factory)
  | keyError          -- KeyError from POSSIBLE_SIZES lookup (factory, empty input)
  | popEmpty          -- IndexError: pop from empty list (UndoRedo)
deriving DecidableEq

/-- One board position: `Cell` from `sudoku.py`.  `possible_values` is the
Python set of still-possible values, modelled as a duplicate-free ascending
list: CPython sets of small non-negative integers enumerate in ascending
order, every set reachable here starts as `set(range(1, MAX_VALUE+1))` and
is only ever filtered, and all operations below preserve order and
freedom from duplicates. -/
structure Cell where
  row : Nat
  column : Nat
  editable : Bool
  value : Nat
  possible_values : List Nat
deriving DecidableEq

/-- `Cell.__init__`: validates the arguments against the class-level
`MAX_VALUE` (here the explicit `maxV`), then populates `possible_values`
with `{1..maxV}` iff the cell is editable. -/
def Cell.init (maxV row column : Nat) (editable : Bool) (value : Nat) :
    Except SErr Cell :=
  if editable = false ∧ value = 0 then .error .emptyClue
  else if maxV < value then .error .invalidValue
  else if ¬(row < maxV ∧ column < maxV) then .error .outOfRange
  else .ok { row := row, column := column, editable := editable, value := value,
             possible_values := if editable then List.range' 1 maxV else [] }

/-- The `Cell.value` setter: refuses non-editable cells, then range-checks,
then writes; a non-zero value clears the possible-value set. -/
def Cell.setValue (maxV : Nat) (c : Cell) (v : Nat) : Except SErr Cell :=
  if c.editable = false then .error .notEditable
  else if maxV < v then .error .invalidValue
  else if v = 0 then .ok { c with value := v }
  else .ok { c with value := v, possible_values := [] }

/-- `Cell.remove_possible_value`: drop `v` from the possible set (no-op if
absent; set removal drops every occurrence). -/
def Cell.removePossibleValue (c : Cell) (v : Nat) : Cell :=
  { c with possible_values := c.possible_values.filter (fun x => x ≠ v) }

/-- `Cell.intersect_possible_values`. -/
def Cell.intersectPossibleValues (c : Cell) (values : Finset Nat) : Cell :=
  { c with possible_values := c.possible_values.filter (fun x => x ∈ values) }

/-- Grid coordinates `(row, column)`; Python regions hold references to cell
objects, which are in bijection with their grid position. -/
abbrev Coord := Nat × Nat

/-- The mutable 2-D cell array `Sudoku.cells`, as a function. -/
abbrev Grid := Nat → Nat → Cell

/-- Point update of the grid (mutating one cell object in place; the new
cell is computed at update time, as in Python). -/
def updateGrid (g : Grid) (p : Coord) (f : Cell → Cell) : Grid :=
  let cell := f (g p.1 p.2)
  fun r c => if r = p.1 ∧ c = p.2 then cell else g r c

/-- `Region.add`: append the cell if the list does not contain it. -/
def regionAdd (reg : List Coord) (p : Coord) : List Coord :=
  if p ∈ reg then reg else reg ++ [p]

/-- `Region.update_possible_values`, first half: start from
`set(range(1, 1+len(cells)))` and discard every value already present in the
region (`if v in values: values.remove(v)`). -/
def regionValuesLeft (g : Grid) (reg : List Coord) : Finset Nat :=
  reg.foldl (fun vs p => vs.erase (g p.1 p.2).value) (Finset.Icc 1 reg.length)

/-- `Region.update_possible_values`, second half: intersect the possible set
of every empty cell of the region with `values`. -/
def regionIntersectFold (values : Finset Nat) (reg : List Coord) (g : Grid) : Grid :=
  reg.foldl (fun g p =>
    if (g p.1 p.2).value = 0 then
      updateGrid g p (fun cell => cell.intersectPossibleValues values)
    else g) g

/-- `Region.update_possible_values` on the shared grid. -/
def regionUpdateGrid (reg : List Coord) (g : Grid) : Grid :=
  regionIntersectFold (regionValuesLeft g reg) reg g

/-- `Region.is_solved`: collect the cell values into a set and compare with
`set(range(1, len(cells)+1))`. -/
def regionIsSolved (g : Grid) (reg : List Coord) : Bool :=
  reg.foldl (fun vs p => insert (g p.1 p.2).value vs) (∅ : Finset Nat)
    = Finset.Icc 1 reg.length

/-- `Region.is_not_possible_to_solve`: walk the cells keeping the set of
non-zero values seen so far; true on an empty cell with no candidates or on a
repeated value. -/
def regionNotPossible (g : Grid) : List Coord → Finset Nat → Bool
  | [], _ => false
  | p :: rest, seen =>
    let cell := g p.1 p.2
    if cell.value = 0 ∧ cell.possible_values = [] then true
    else if cell.value ∈ seen then true
    else if cell.value ≠ 0 then regionNotPossible g rest (insert cell.value seen)
    else regionNotPossible g rest seen

/-- `Region.remove_possible_value_if_cell_is_in_region`: when the given cell
belongs to the region, remove `v` from the possible set of every cell of the
region. -/
def regionRemoveIfMem (reg : List Coord) (p : Coord) (v : Nat) (g : Grid) : Grid :=
  if p ∈ reg then
    reg.foldl (fun g q => updateGrid g q (fun cell => cell.removePossibleValue v)) g
  else g

/-- One recorded action `(row, column, old_value, value, method)`. -/
abbrev Action := Nat × Nat × Nat × Nat × String

/-- The two stacks of `UndoRedo`. -/
structure UndoRedo where
  undo : List Action
  redo : List Action
deriving DecidableEq

/-- `UndoRedo.add_action`: push onto the undo stack and clear the redo
stack. -/
def UndoRedo.addAction (u : UndoRedo) (row column old_value value : Nat)
    (method : String) : UndoRedo :=
  { undo := u.undo ++ [(row, column, old_value, value, method)], redo := [] }

/-- `UndoRedo.undo`: pop the most recent action (IndexError — `none` — on an
empty stack), push it onto the redo stack, and return it together with the
resulting stack lengths and the new stacks. -/
def UndoRedo.undoPop (u : UndoRedo) :
    Option (Action × Nat × Nat × UndoRedo) :=
  match u.undo.getLast? with
  | none => none
  | some a =>
    let u2 : UndoRedo := { undo := u.undo.dropLast, redo := u.redo ++ [a] }
    some (a, u2.undo.length, u2.redo.length, u2)

/-- `UndoRedo.redo`: pop the most recent undone action (IndexError — `none` —
on an empty stack) and push it back onto the undo stack. -/
def UndoRedo.redoPop (u : UndoRedo) :
    Option (Action × Nat × Nat × UndoRedo) :=
  match u.redo.getLast? with
  | none => none
  | some a =>
    let u2 : UndoRedo := { undo := u.undo ++ [a], redo := u.redo.dropLast }
    some (a, u2.undo.length, u2.redo.length, u2)

/-- The `Sudoku` board: size, rectangle shape, the cell grid, the region
list built by `__init__`, and the `UndoRedo` history. -/
structure Sudoku where
  size : Nat
  rect_width : Nat
  rect_height : Nat
  cells : Grid
  regions : List (List Coord)
  undo_redo : UndoRedo

/-- Region construction from `Sudoku.__init__`: preallocate
`rows + columns + rectangles` empty regions, populate the row and column
regions cell by cell, then fill the rectangle regions with the `reg` counter
starting at `size * 2 - 1` and pre-incrementing once per rectangle. -/
def mkRegions (size rect_width rect_height : Nat) : List (List Coord) :=
  let rows := size
  let rectangles := size * size / (rect_width * rect_height)
  let regs0 : List (List Coord) := List.replicate (rows + rows + rectangles) []
  let regs1 := (List.range size).foldl (fun regs row =>
    (List.range size).foldl (fun regs col =>
      let regs := regs.set row (regionAdd (regs.getD row []) (row, col))
      regs.set (rows + col) (regionAdd (regs.getD (rows + col) []) (row, col)))
      regs) regs0
  let width_size := size / rect_width
  let height_size := size / rect_height
  let step := fun (st : List (List Coord) × Nat) (x_start y_start : Nat) =>
    let reg := st.2 + 1
    let regs := (List.range' (x_start * width_size) width_size).foldl (fun regs x =>
      (List.range' (y_start * height_size) height_size).foldl (fun regs y =>
        regs.set reg (regionAdd (regs.getD reg []) (x, y))) regs) st.1
    (regs, reg)
  ((List.range height_size).foldl (fun st x_start =>
    (List.range width_size).foldl (fun st y_start => step st x_start y_start) st)
    (regs1, size * 2 - 1)).1

/-- `Sudoku.update_possible_values_in_all_regions`: refresh the possible
values of every region in order. -/
def updateAllRegions (s : Sudoku) : Sudoku :=
  { s with cells := s.regions.foldl (fun g reg => regionUpdateGrid reg g) s.cells }

/-- `Sudoku.__init__` on an explicitly given cell grid (the `cells is not
None` branch, the one exercised by the factory): record the arguments, build
the regions and refresh all possible values.  The `cells is None` branch
(fresh editable cells) is not needed by any claim. -/
def mkSudoku (size : Nat) (cells : Grid) (rect_width rect_height : Nat) : Sudoku :=
  updateAllRegions
    { size := size, rect_width := rect_width, rect_height := rect_height,
      cells := cells, regions := mkRegions size rect_width rect_height,
      undo_redo := { undo := [], redo := [] } }

/-- `Sudoku.is_solved`: every region solved. -/
def Sudoku.isSolved (s : Sudoku) : Bool :=
  s.regions.all (fun reg => regionIsSolved s.cells reg)

/-- `Sudoku.is_wrong`: some region impossible to solve. -/
def Sudoku.isWrong (s : Sudoku) : Bool :=
  s.regions.any (fun reg => regionNotPossible s.cells reg ∅)

/-- Computations on a board that may raise: the error carries the board state
at raise time (Python mutates in place, so an exception leaves the partially
mutated object behind). -/
abbrev SudokuM (α : Type) := Except (SErr × Sudoku) α

/-- `Sudoku._remove_possible_value`: for every region, remove the value from
the possible sets of its cells whenever the assigned cell lies in the
region. -/
def removeFromAllRegions (regions : List (List Coord)) (p : Coord) (v : Nat)
    (g : Grid) : Grid :=
  regions.foldl (fun g reg => regionRemoveIfMem reg p v g) g

/-- `Sudoku.set_cell_value`: range-check the coordinates (AttributeError
otherwise), write the value through the cell's setter (propagating its
failures), remove the value from the possible sets of all sharing regions,
and record the action in the history. -/
def setCellValue (maxV : Nat) (s : Sudoku) (row column v : Nat)
    (method : String) : SudokuM Sudoku :=
  if row < s.size ∧ column < s.size then
    let cell := s.cells row column
    let old_value := cell.value
    match cell.setValue maxV v with
    | .error e => .error (e, s)
    | .ok cell2 =>
      let s2 := { s with cells := updateGrid s.cells (row, column) (fun _ => cell2) }
      let s3 := { s2 with
        cells := removeFromAllRegions s2.regions (row, column) v s2.cells }
      .ok { s3 with
        undo_redo := s3.undo_redo.addAction row column old_value v method }
  else .error (.outOfRange, s)

/-- `Sudoku.get_cell_value` (range-checked read). -/
def getCellValue (s : Sudoku) (row column : Nat) : SudokuM Nat :=
  if row < s.size ∧ column < s.size then .ok (s.cells row column).value
  else .error (.outOfRange, s)

/-- `Sudoku.get_cell_possibilities` (range-checked read). -/
def getCellPossibilities (s : Sudoku) (row column : Nat) : SudokuM (List Nat) :=
  if row < s.size ∧ column < s.size then .ok (s.cells row column).possible_values
  else .error (.outOfRange, s)

/-- `Sudoku.copy_from`: replay, via `set_cell_value`, every action of the
source history beyond the destination's current history length. -/
def copyFrom (maxV : Nat) (s source : Sudoku) : SudokuM Sudoku :=
  (source.undo_redo.undo.drop s.undo_redo.undo.length).foldlM
    (fun s a => setCellValue maxV s a.1 a.2.1 a.2.2.2.1 a.2.2.2.2) s

/-- Row-major traversal order of the board (`for row ...: for column ...`). -/
def coordsRM (size : Nat) : List Coord :=
  (List.range size).flatMap (fun row => (List.range size).map (fun col => (row, col)))

/-- One step of `OnePossibility.solve`: skip everything once the early return
(`solve_one`) has fired; otherwise, when the cell has exactly one possible
value, write it (`list(possibilities)[0]`: the unique element). -/
def onePossibilityStep (maxV : Nat) (solve_one : Bool)
    (st : Sudoku × Bool × Bool) (p : Coord) : SudokuM (Sudoku × Bool × Bool) :=
  if st.2.2 then .ok st
  else do
    let possibilities ← getCellPossibilities st.1 p.1 p.2
    if possibilities.length = 1 then do
      let s2 ← setCellValue maxV st.1 p.1 p.2 (possibilities.headD 0)
        "OnePossibility"
      .ok (s2, true, solve_one)
    else .ok (st.1, st.2.1, false)

/-- `OnePossibility.solve`: scan the cells in row-major order, writing every
value that is the only possibility; report whether anything was written. -/
def onePossibilitySolve (maxV : Nat) (solve_one : Bool) (s : Sudoku) :
    SudokuM (Sudoku × Bool) := do
  let st ← (coordsRM s.size).foldlM (onePossibilityStep maxV solve_one)
    (s, false, false)
  .ok (st.1, st.2.1)

/-- The per-region tally of `Exclusion.solve`: a dict (insertion-ordered
association list) from a possible value to how many cells of the region carry
it and the list of those cells. -/
def dictAdd : List (Nat × Nat × List Coord) → Nat → Coord →
    List (Nat × Nat × List Coord)
  | [], v, p => [(v, 1, [p])]
  | (k, count, cells) :: rest, v, p =>
    if k = v then (k, count + 1, cells ++ [p]) :: rest
    else (k, count, cells) :: dictAdd rest v p

/-- Build `count_possibilities_dict` for one region. -/
def exclusionTally (g : Grid) (reg : List Coord) : List (Nat × Nat × List Coord) :=
  reg.foldl (fun d p =>
    (g p.1 p.2).possible_values.foldl (fun d v => dictAdd d v p) d) []

/-- `Exclusion.solve`: per region, tally the possible values, then write every
value whose count is exactly one into its unique cell (`cells_list[0]`).  The
`solve_one` argument is accepted and ignored, as in the source. -/
def exclusionSolve (maxV : Nat) (_solve_one : Bool) (s : Sudoku) :
    SudokuM (Sudoku × Bool) :=
  s.regions.foldlM (fun (st : Sudoku × Bool) reg => do
    let d := exclusionTally st.1.cells reg
    d.foldlM (fun (st : Sudoku × Bool) e =>
      if e.2.1 = 1 then do
        let p := e.2.2.headD (0, 0)
        let s2 ← setCellValue maxV st.1 p.1 p.2 e.1 "Exclusion"
        .ok (s2, true)
      else .ok st) st) (s, false)

/-- The two deduction patterns, in the order of
`Pattern.get_patterns_without_brute_force()`. -/
def patternsWithoutBruteForce (maxV : Nat) :
    List (Bool → Sudoku → SudokuM (Sudoku × Bool)) :=
  [onePossibilitySolve maxV, exclusionSolve maxV]

/-- The `while solve_again: solve_again = pattern.solve(...)` loop of
`BruteForce.SudokuNode.solve`, with explicit fuel (the Python loop is
unbounded; running out of fuel abandons the loop). -/
def patternFix (pat : Sudoku → SudokuM (Sudoku × Bool)) :
    Nat → Sudoku → SudokuM Sudoku
  | 0, s => .ok s
  | fuel + 1, s => do
    let r ← pat s
    if r.2 then patternFix pat fuel r.1 else .ok r.1

/-- The node's preliminary deduction: run each of the two patterns to a local
fixed point, in order. -/
def nodePropagate (maxV pfuel : Nat) (s : Sudoku) : SudokuM Sudoku :=
  (patternsWithoutBruteForce maxV).foldlM
    (fun s pat => patternFix (pat false) pfuel s) s

/-- The scan of `SudokuNode.solve` for the first cell with value zero, in
row-major order (the `is_done` double break). -/
def firstEmptyCell (s : Sudoku) : Option Coord :=
  (coordsRM s.size).find? (fun p => (s.cells p.1 p.2).value = 0)

/-- `SudokuNode.__init__` for a child: deep-copy the board (the value itself
in this embedding) and pre-assign the candidate when it is positive. -/
def mkNodeBoard (maxV : Nat) (s : Sudoku) (row column v : Nat) : SudokuM Sudoku :=
  if v > 0 then setCellValue maxV s row column v "BruteForce" else .ok s

/-- The candidate values of the branching cell, in the set's enumeration
order. -/
def candidateList (s : Sudoku) (p : Coord) : List Nat :=
  (s.cells p.1 p.2).possible_values

/-- The child-construction loop (`for possibility in ...: children.append`):
one board per candidate, in order, with construction failures propagated. -/
def buildChildren (maxV : Nat) (s : Sudoku) (p : Coord) :
    List Nat → SudokuM (List Sudoku)
  | [] => .ok []
  | v :: vs => do
    let child ← mkNodeBoard maxV s p.1 p.2 v
    let rest ← buildChildren maxV s p vs
    .ok (child :: rest)

/-- The children of a node: one board per candidate of the branching cell. -/
def childrenBoards (maxV : Nat) (s : Sudoku) (p : Coord) : SudokuM (List Sudoku) :=
  buildChildren maxV s p (candidateList s p)

/-- `BruteForce.SudokuNode.solve` with recursion fuel.  Returns the solved
board (the class-level `sudoku_solved` slot) or `none`.  The
`for child in self._children: return child.solve()` loop consults only the
first child and returns its result unconditionally; with no children it
falls through and returns `None`. -/
def nodeSolve (maxV pfuel : Nat) : Nat → Sudoku → SudokuM (Option Sudoku)
  | 0, _ => .ok none
  | fuel + 1, s => do
    let t ← nodePropagate maxV pfuel s
    if t.isSolved then .ok (some t)
    else if t.isWrong then .ok none
    else
      match firstEmptyCell t with
      | none => .ok none
      | some p => do
        let children ← childrenBoards maxV t p
        match children with
        | [] => .ok none
        | c :: _ => nodeSolve maxV pfuel fuel c

/-- `BruteForce.solve`: root the search at a copy of the board; if the board
is not already contradictory, run the recursive solve and, when a solution
was recorded, replay it onto the original board via `copy_from`. -/
def bruteForceSolve (maxV pfuel nfuel : Nat) (s : Sudoku) :
    SudokuM (Sudoku × Bool) :=
  if s.isWrong then .ok (s, false)
  else do
    let r ← nodeSolve maxV pfuel nfuel s
    match r with
    | some solved => do
      let s2 ← copyFrom maxV s solved
      .ok (s2, true)
    | none => .ok (s, false)

/-- One round of `SudokuSolver.solve`: apply each pattern once with
`solve_one=False`; break out as soon as the board is solved (restart flag
forced to false); otherwise accumulate the restart flag from the patterns'
change reports.  Returns the board and the restart flag. -/
def solverRound (maxV : Nat) (s : Sudoku) : SudokuM (Sudoku × Bool) := do
  let st ← (patternsWithoutBruteForce maxV).foldlM
    (fun (st : Sudoku × Bool × Bool) pat =>
      if st.2.2 then .ok st
      else do
        let r ← pat false st.1
        if r.1.isSolved then .ok (r.1, false, true)
        else .ok (r.1, st.2.1 || r.2, false)) (s, false, false)
  .ok (st.1, st.2.1)

/-- The `while restart:` loop of `SudokuSolver.solve`, with explicit fuel. -/
def solverLoop (maxV : Nat) : Nat → Sudoku → SudokuM Sudoku
  | 0, s => .ok s
  | fuel + 1, s => do
    let r ← solverRound maxV s
    if r.2 then solverLoop maxV fuel r.1 else .ok r.1

/-- `SudokuSolver.solve`: run the pattern loop; if the board is still not
solved, run `BruteForce`; return the final board together with
`sudoku.is_solved()`. -/
def solverSolve (maxV pfuel nfuel wfuel : Nat) (s : Sudoku) :
    SudokuM (Sudoku × Bool) := do
  let t ← solverLoop maxV wfuel s
  if t.isSolved then .ok (t, t.isSolved)
  else do
    let r ← bruteForceSolve maxV pfuel nfuel t
    .ok (r.1, r.1.isSolved)

/-- `SudokuFactory.POSSIBLE_SIZES`. -/
def possibleSizes (n : Nat) : Option (Nat × Nat) :=
  if n = 4 then some (2, 2)
  else if n = 6 then some (3, 2)
  else if n = 9 then some (3, 3)
  else none

/-- Python `str.strip()` (ASCII whitespace): drop leading and trailing
whitespace characters. -/
def stripChars (l : List Char) : List Char :=
  ((l.dropWhile Char.isWhitespace).reverse.dropWhile Char.isWhitespace).reverse

/-- Python `str.isdigit`: non-empty and all characters digits. -/
def digitLine (l : List Char) : Bool :=
  !l.isEmpty && l.all Char.isDigit

/-- The lines kept by `create_from_string`: split (the input is already a
line list here), strip, keep the digit-only lines. -/
def keptLines (input : List String) : List (List Char) :=
  (input.map (fun l => stripChars l.toList)).filter digitLine

/-- The filler returned on an out-of-bounds list read; constructed boards
never read out of bounds. -/
def fillerCell (r c : Nat) : Cell :=
  { row := r, column := c, editable := true, value := 0, possible_values := [] }

/-- View a Python list-of-lists of cells as a grid. -/
def gridOfLists (cells : List (List Cell)) : Grid :=
  fun r c => (cells.getD r []).getD c (fillerCell r c)

/-- The cell matrix built by `create_from_string`:
`Cell(row, col, False, value) if value else Cell(row, col)`, row-major, with
the first constructor failure propagated. -/
def factoryCells (size : Nat) (lines : List (List Char)) :
    Except SErr (List (List Cell)) :=
  (List.range size).mapM (fun row => (List.range size).mapM (fun col =>
    let value := ((lines.getD row []).getD col '0').toNat - 48
    if value ≠ 0 then Cell.init size row col false value
    else Cell.init size row col true 0))

/-- `SudokuFactory.create_from_string`.  The first argument is the value of
the class-level global `Cell.MAX_VALUE` before the call; the body overwrites
that global with the parsed size before constructing any cell, so the
argument is never read.  On success the returned `Nat` is the global's value
after the call, which every later `Cell.__init__` validates against.  (The
input is the list of lines of the multiline string.) -/
def createFromString (_maxValue : Nat) (input : List String) :
    Except SErr (Nat × Sudoku) :=
  let lines := keptLines input
  let size := lines.length
  if lines.any (fun l => decide (l.length ≠ size) || (possibleSizes size).isNone)
  then .error .invalidFormat
  else
    match factoryCells size lines with
    | .error e => .error e
    | .ok cells =>
      match possibleSizes size with
      | none => .error .keyError
      | some wh => .ok (size, mkSudoku size (gridOfLists cells) wh.1 wh.2)

/-- Modelled from the spec: the caller-side undo application is not part of
`sudoku.py` (only the `UndoRedo.undo` stack operation is).  Per §6, the
caller pops the action, applies the old value directly to the cell without
calling the logging path of `set_cell_value`, then refreshes all
candidates. -/
def undoProtocol (s : Sudoku) : Option Sudoku :=
  match s.undo_redo.undoPop with
  | none => none
  | some (a, _, _, u2) =>
    let s2 := { s with
      undo_redo := u2
      cells := updateGrid s.cells (a.1, a.2.1)
        (fun cell => { cell with value := a.2.2.1 }) }
    some (updateAllRegions s2)

/-- Modelled from the spec: the caller-side redo application (§6): pop the
undone action, apply the new value directly to the cell, refresh all
candidates. -/
def redoProtocol (s : Sudoku) : Option Sudoku :=
  match s.undo_redo.redoPop with
  | none => none
  | some (a, _, _, u2) =>
    let s2 := { s with
      undo_redo := u2
      cells := updateGrid s.cells (a.1, a.2.1)
        (fun cell => { cell with value := a.2.2.2.1 }) }
    some (updateAllRegions s2)

/-- Extract a successful board, with a fallback. -/
def getOkS (dflt : Sudoku) : SudokuM Sudoku → Sudoku
  | .ok s => s
  | .error _ => dflt

/-- Extract a present board, with a fallback. -/
def getSomeS (dflt : Sudoku) : Option Sudoku → Sudoku
  | some s => s
  | none => dflt

/-- Spec-side reading of `Region.is_solved` (§4.2/§8): the multiset of the
region's cell values is exactly `{1..N}`. -/
def specRegionSolved (g : Grid) (reg : List Coord) (n : Nat) : Prop :=
  ((reg.map (fun p => (g p.1 p.2).value) : List Nat) : Multiset Nat)
    = (Finset.Icc 1 n).val

/-- Spec-side reading of `Region.has_contradiction` (§4.2): some empty cell
with no candidates, or a duplicated non-zero value. -/
def specRegionContradiction (g : Grid) (reg : List Coord) : Prop :=
  (∃ p ∈ reg, (g p.1 p.2).value = 0 ∧ (g p.1 p.2).possible_values = []) ∨
  ¬ ((reg.map (fun p => (g p.1 p.2).value)).filter (fun v => v ≠ 0)).Nodup

/-- Well-formedness of the region structure of one board configuration
(C8): the expected number of regions, `N` pairwise distinct cells in each,
and each in-range cell in exactly one row region (the first `N`), one column
region (the next `N`) and one rectangle region (the rest). -/
abbrev regionsWellFormed (n w h : Nat) : Prop :=
  (mkRegions n w h).length = n + n + n * n / (w * h) ∧
  (∀ reg ∈ mkRegions n w h, reg.length = n ∧ reg.Nodup) ∧
  (∀ r < n, ∀ c < n,
    ((mkRegions n w h).take n).countP (fun reg => decide ((r, c) ∈ reg)) = 1 ∧
    (((mkRegions n w h).drop n).take n).countP (fun reg => decide ((r, c) ∈ reg)) = 1 ∧
    ((mkRegions n w h).drop (n + n)).countP (fun reg => decide ((r, c) ∈ reg)) = 1)

/-- Candidate consistency: in every region, every empty cell's possible set
is contained in the values the region still misses.  This holds for factory
boards and is preserved by `set_cell_value`; the undo/redo round trip (C6)
assumes it. -/
abbrev candidatesConsistent (s : Sudoku) : Prop :=
  ∀ reg ∈ s.regions, ∀ q ∈ reg, (s.cells q.1 q.2).value = 0 →
    ∀ v ∈ (s.cells q.1 q.2).possible_values, v ∈ regionValuesLeft s.cells reg

/-- Placed cells carry no candidates (in every region).  Holds for factory
boards (the value setter clears the set) and is preserved by
`set_cell_value`. -/
abbrev filledCellsClean (s : Sudoku) : Prop :=
  ∀ reg ∈ s.regions, ∀ q ∈ reg, (s.cells q.1 q.2).value ≠ 0 →
    (s.cells q.1 q.2).possible_values = []

/-- An empty 4-by-4 board (all cells editable, full candidate sets), as the
factory would build it from a blank grid. -/
def empty4 : Sudoku :=
  { size := 4, rect_width := 2, rect_height := 2,
    cells := fun r c => { row := r, column := c, editable := true, value := 0,
                          possible_values := [1, 2, 3, 4] },
    regions := mkRegions 4 2 2, undo_redo := { undo := [], redo := [] } }

/-- A solved 4-by-4 grid (the one from the spec's end-to-end 4-by-4 test). -/
def solvedVals4 : List (List Nat) := [[1,3,4,2],[4,2,1,3],[2,4,3,1],[3,1,2,4]]

/-- A solved 4-by-4 board of immutable clue cells. -/
def solved4 : Sudoku :=
  { size := 4, rect_width := 2, rect_height := 2,
    cells := fun r c => { row := r, column := c, editable := false,
                          value := (solvedVals4.getD r []).getD c 0,
                          possible_values := [] },
    regions := mkRegions 4 2 2, undo_redo := { undo := [], redo := [] } }

/-- A 4-by-4 board whose top-left cell has a single candidate, so that one
deduction round reports a change without solving the board. -/
def nearly4 : Sudoku :=
  { size := 4, rect_width := 2, rect_height := 2,
    cells := fun r c =>
      if r = 0 ∧ c = 0 then
        { row := 0, column := 0, editable := true, value := 0,
          possible_values := [2] }
      else { row := r, column := c, editable := true, value := 0,
             possible_values := [1, 2, 3, 4] },
    regions := mkRegions 4 2 2, undo_redo := { undo := [], redo := [] } }

/-- The cell produced by a successful write of `v` through the value setter:
the value is stored and, when `v` is non-zero, the possible set is
cleared. -/
def assignedCell (cl : Cell) (v : Nat) : Cell :=
  if v = 0 then { cl with value := v }
  else { cl with value := v, possible_values := [] }

/-- The board after assigning value 1 at the top-left cell of the empty
4-by-4 board (used by concrete instantiations below). -/
def empty4Assigned : Sudoku := getOkS empty4 (setCellValue 4 empty4 0 0 1 "w")

/-- The board after undoing the assignment of `empty4Assigned`. -/
def empty4Undone : Sudoku := getSomeS empty4 (undoProtocol empty4Assigned)

/-- The board after redoing the undone assignment of `empty4Undone`. -/
def empty4Redone : Sudoku := getSomeS empty4 (redoProtocol empty4Undone)

/-- The child of the root search node on the empty 4-by-4 board that
pre-assigns candidate `v` at the first empty cell. -/
def empty4Child (v : Nat) : Sudoku := getOkS empty4 (mkNodeBoard 4 empty4 0 0 v)

/-- The board produced by one solver round on `nearly4`. -/
def nearly4After : Sudoku :=
  match solverRound 4 nearly4 with
  | .ok r => r.1
  | .error _ => nearly4

set_option maxRecDepth 1000000

/-- C2: assigning any value to an immutable (non-editable) cell fails with
the `NotEditable` error, both through the cell's value setter and through
`set_cell_value` with valid coordinates; on the `set_cell_value` failure the
board state at raise time — every cell's value and candidate set and the
undo/redo history — is exactly the state before the call. -/
theorem assign_to_clue_cell_fails_unchanged (maxV : Nat) (s : Sudoku)
    (row column v : Nat) (tag : String) (hr : row < s.size)
    (hc : column < s.size) (hed : (s.cells row column).editable = false) :
    (s.cells row column).setValue maxV v = .error .notEditable ∧
    setCellValue maxV s row column v tag = .error (.notEditable, s) := by
  have h1 : (s.cells row column).setValue maxV v = .error .notEditable := by
    unfold Cell.setValue
    rw [hed]
    simp
  refine ⟨h1, ?_⟩
  simp only [setCellValue,
    if_pos (show row < s.size ∧ column < s.size from ⟨hr, hc⟩), h1]

/-- Witness for C2: the top-left clue cell of a concrete solved board. -/
theorem assign_to_clue_cell_fails_unchanged_witness :
    (0 < solved4.size ∧ (solved4.cells 0 0).editable = false) ∧
    (solved4.cells 0 0).setValue 4 3 = .error .notEditable ∧
    setCellValue 4 solved4 0 0 3 "x" = .error (.notEditable, solved4) :=
  ⟨⟨by decide, by decide⟩,
    assign_to_clue_cell_fails_unchanged 4 solved4 0 0 3 "x"
      (by decide) (by decide) (by decide)⟩

/-- C10: `undo()` (resp. `redo()`) pops without checking for emptiness: it
raises — returns `none`, the image of the IndexError — exactly when the
undo (resp. redo) list is empty, and never yields an empty or sentinel
result in that case. -/
theorem pop_on_empty_stack_raises (u : UndoRedo) :
    (u.undoPop = none ↔ u.undo = []) ∧ (u.redoPop = none ↔ u.redo = []) := by
  constructor
  · unfold UndoRedo.undoPop
    cases h : u.undo.getLast? with
    | none => simpa using List.getLast?_eq_none_iff.mp h
    | some a =>
      simp only []
      constructor
      · intro hnone; cases hnone
      · intro hnil; rw [hnil] at h; cases h
  · unfold UndoRedo.redoPop
    cases h : u.redo.getLast? with
    | none => simpa using List.getLast?_eq_none_iff.mp h
    | some a =>
      simp only []
      constructor
      · intro hnone; cases hnone
      · intro hnil; rw [hnil] at h; cases h

/-- C8: for each supported configuration (4 with 2-by-2 boxes, 6 with
3-wide-2-high boxes, 9 with 3-by-3 boxes) the constructor's region list —
which `Sudoku.__init__` attaches to every board of that configuration
whatever its cells — has `2N + N²/(box area)` regions, each with exactly `N`
distinct cells, and every cell belongs to exactly one row region, one column
region and one rectangle region. -/
theorem regions_wellFormed_all_sizes :
    (∀ g : Grid, ∀ n w h : Nat, (mkSudoku n g w h).regions = mkRegions n w h) ∧
    regionsWellFormed 4 2 2 ∧ regionsWellFormed 6 3 2 ∧ regionsWellFormed 9 3 3 :=
  ⟨fun _ _ _ _ => rfl, by decide, by decide, by decide⟩

/-- C9: a successful factory call overwrites the class-level `Cell.MAX_VALUE`
for the whole process: the call's outcome does not depend on the previous
global at all, the new global equals the parsed size (which is one of
4, 6, 9 and is the constructed board's size), and every cell constructed
afterwards — including by a later factory call of a different size —
validates its value against that size and draws its initial candidate set
`{1..N}` from it. -/
theorem factory_overwrites_global_max (m1 m2 : Nat) (input : List String)
    (hok : (createFromString m1 input).isOk = true) :
    createFromString m2 input = createFromString m1 input ∧
    (∀ mv sud, createFromString m1 input = .ok (mv, sud) →
      mv = (keptLines input).length ∧ mv = sud.size ∧
      (mv = 4 ∨ mv = 6 ∨ mv = 9) ∧
      (∀ r c e v, mv < v → Cell.init mv r c e v = .error .invalidValue) ∧
      (∀ r c, r < mv → c < mv →
        Cell.init mv r c true 0 =
          .ok { row := r, column := c, editable := true, value := 0,
                possible_values := List.range' 1 mv })) := by
  clear hok
  refine ⟨rfl, ?_⟩
  intro mv sud heq
  simp only [createFromString] at heq
  split at heq
  · exact absurd heq (by simp)
  · split at heq
    · exact absurd heq (by simp)
    · split at heq
      · exact absurd heq (by simp)
      · rename_i cells hcells wh hps
        rw [Except.ok.injEq, Prod.mk.injEq] at heq
        obtain ⟨hmv, hsud⟩ := heq
        have hsize : mv = (keptLines input).length := hmv.symm
        refine ⟨hsize, ?_, ?_, ?_, ?_⟩
        · rw [← hsud, ← hmv]; rfl
        · unfold possibleSizes at hps
          split_ifs at hps with h4 h6 h9
          · exact Or.inl (hsize.trans h4)
          · exact Or.inr (Or.inl (hsize.trans h6))
          · exact Or.inr (Or.inr (hsize.trans h9))
        · intro r c e v hv
          have hvpos : v ≠ 0 := by omega
          unfold Cell.init
          rw [if_neg (by simp [hvpos]), if_pos hv]
        · intro r c hrm hcm
          unfold Cell.init
          rw [if_neg (by simp), if_neg (by omega), if_neg (by simp [hrm, hcm])]
          simp

/-- Witness for C9: a successful 4-by-4 factory call. -/
theorem factory_overwrites_global_max_witness :
    (createFromString 9 ["1000", "0200", "0030", "0004"]).isOk = true ∧
    createFromString 6 ["1000", "0200", "0030", "0004"]
      = createFromString 9 ["1000", "0200", "0030", "0004"] :=
  ⟨by decide,
    (factory_overwrites_global_max 9 6 ["1000", "0200", "0030", "0004"]
      (by decide)).1.symm⟩

theorem foldl_insert_eq_union (l : List Nat) (init : Finset Nat) :
    l.foldl (fun vs v => insert v vs) init = init ∪ l.toFinset := by
  induction l generalizing init with
  | nil => simp
  | cons a t ih =>
    simp only [List.foldl_cons, List.toFinset_cons, ih, Finset.insert_union,
      Finset.union_insert]

theorem toFinset_eq_Icc_iff_multiset (l : List Nat) (n : Nat)
    (hlen : l.length = n) :
    l.toFinset = Finset.Icc 1 n ↔ (l : Multiset Nat) = (Finset.Icc 1 n).val := by
  constructor
  · intro hf
    have hcard : l.dedup.length = n := by
      have h1 : l.toFinset.card = l.dedup.length := List.card_toFinset l
      rw [hf, Nat.card_Icc] at h1
      omega
    have hnd : l.Nodup :=
      List.dedup_eq_self.mp ((l.dedup_sublist).eq_of_length (hcard.trans hlen.symm))
    refine (Multiset.Nodup.ext (by exact hnd) (Finset.Icc 1 n).nodup).mpr fun a => ?_
    rw [Multiset.mem_coe, ← List.mem_toFinset, hf]
    exact Iff.rfl
  · intro hm
    ext a
    rw [List.mem_toFinset, ← Multiset.mem_coe, hm]
    exact Iff.rfl

theorem regionIsSolved_iff_spec (g : Grid) (reg : List Coord) (n : Nat)
    (hlen : reg.length = n) :
    regionIsSolved g reg = true ↔ specRegionSolved g reg n := by
  unfold regionIsSolved specRegionSolved
  rw [decide_eq_true_iff]
  have hfold : reg.foldl (fun vs p => insert (g p.1 p.2).value vs) ∅
      = (reg.map (fun p => (g p.1 p.2).value)).toFinset := by
    rw [← List.foldl_map (fun p : Coord => (g p.1 p.2).value)
      (fun vs v => insert v vs), foldl_insert_eq_union]
    simp
  rw [hfold, hlen]
  exact toFinset_eq_Icc_iff_multiset _ n (by simpa using hlen)

/-- C3: `is_solved()` is true iff in every region the multiset of its cell
values is exactly `{1..N}` — no zeros and no duplicates anywhere — for every
board whose regions all have `N` cells (as every constructed board's
do, cf. C8). -/
theorem isSolved_iff_every_region_multiset (s : Sudoku)
    (hlen : ∀ reg ∈ s.regions, reg.length = s.size) :
    s.isSolved = true ↔ ∀ reg ∈ s.regions, specRegionSolved s.cells reg s.size := by
  unfold Sudoku.isSolved
  rw [List.all_eq_true]
  exact forall_congr' fun reg => forall_congr' fun hmem =>
    regionIsSolved_iff_spec s.cells reg s.size (hlen reg hmem)

/-- Witness for C3: the solved 4-by-4 board. -/
theorem isSolved_iff_every_region_multiset_witness :
    (∀ reg ∈ solved4.regions, reg.length = solved4.size) ∧
    (solved4.isSolved = true ↔
      ∀ reg ∈ solved4.regions, specRegionSolved solved4.cells reg solved4.size) :=
  ⟨by decide, isSolved_iff_every_region_multiset solved4 (by decide)⟩

theorem regionNotPossible_eq_true_iff (g : Grid) (reg : List Coord)
    (seen : Finset Nat) (hseen : 0 ∉ seen) :
    regionNotPossible g reg seen = true ↔
      ((∃ p ∈ reg, (g p.1 p.2).value = 0 ∧ (g p.1 p.2).possible_values = []) ∨
       (∃ v ∈ seen, v ∈ reg.map (fun p => (g p.1 p.2).value)) ∨
       ¬ ((reg.map (fun p => (g p.1 p.2).value)).filter
            (fun v => v ≠ 0)).Nodup) := by
  induction reg generalizing seen with
  | nil => simp [regionNotPossible]
  | cons p rest ih =>
    simp only [regionNotPossible]
    split_ifs with h1 h2 h3
    · simp only [true_iff]
      exact Or.inl ⟨p, List.mem_cons_self p rest, h1⟩
    · simp only [true_iff]
      exact Or.inr (Or.inl ⟨(g p.1 p.2).value, h2, by simp⟩)
    · have hins : (0 : Nat) ∉ insert (g p.1 p.2).value seen := by
        rw [Finset.mem_insert]
        push_neg
        exact ⟨fun h => h3 h.symm, hseen⟩
      rw [ih (insert (g p.1 p.2).value seen) hins]
      have hmemf : ((g p.1 p.2).value ∈
          (rest.map (fun q => (g q.1 q.2).value)).filter (fun v => v ≠ 0)) ↔
          (g p.1 p.2).value ∈ rest.map (fun q => (g q.1 q.2).value) := by
        simp [List.mem_filter, h3]
      have hfil : (((p :: rest).map (fun q => (g q.1 q.2).value)).filter
            (fun v => v ≠ 0))
          = (g p.1 p.2).value ::
            ((rest.map (fun q => (g q.1 q.2).value)).filter (fun v => v ≠ 0)) := by
        simp [List.filter_cons, h3]
      constructor
      · rintro (⟨q, hq, hE⟩ | ⟨v, hvins, hvm⟩ | hnd)
        · exact Or.inl ⟨q, List.mem_cons_of_mem p hq, hE⟩
        · rcases Finset.mem_insert.mp hvins with hveq | hvseen
          · refine Or.inr (Or.inr ?_)
            rw [hfil, List.nodup_cons]
            exact fun hcon => hcon.1 (hmemf.mpr (hveq ▸ hvm))
          · exact Or.inr (Or.inl ⟨v, hvseen, by
              rw [List.map_cons]
              exact List.mem_cons_of_mem _ hvm⟩)
        · refine Or.inr (Or.inr ?_)
          rw [hfil, List.nodup_cons]
          exact fun hcon => hnd hcon.2
      · rintro (⟨q, hq, hE⟩ | ⟨v, hvseen, hvm⟩ | hnd)
        · rcases List.mem_cons.mp hq with hqp | hqr
          · exact absurd (hqp ▸ hE) h1
          · exact Or.inl ⟨q, hqr, hE⟩
        · rw [List.map_cons] at hvm
          rcases List.mem_cons.mp hvm with hveq | hvr
          · exact absurd (hveq ▸ hvseen) h2
          · exact Or.inr (Or.inl ⟨v, Finset.mem_insert_of_mem hvseen, hvr⟩)
        · rw [hfil, List.nodup_cons] at hnd
          push_neg at hnd
          by_cases hm : (g p.1 p.2).value ∈
              (rest.map (fun q => (g q.1 q.2).value)).filter (fun v => v ≠ 0)
          · exact Or.inr (Or.inl ⟨(g p.1 p.2).value, Finset.mem_insert_self _ _,
              hmemf.mp hm⟩)
          · exact Or.inr (Or.inr (hnd hm))
    · have hval : (g p.1 p.2).value = 0 := by
        by_contra hne
        exact h3 hne
      rw [ih seen hseen]
      have hfil : (((p :: rest).map (fun q => (g q.1 q.2).value)).filter
            (fun v => v ≠ 0))
          = (rest.map (fun q => (g q.1 q.2).value)).filter (fun v => v ≠ 0) := by
        simp [List.filter_cons, hval]
      constructor
      · rintro (⟨q, hq, hE⟩ | ⟨v, hvseen, hvm⟩ | hnd)
        · exact Or.inl ⟨q, List.mem_cons_of_mem p hq, hE⟩
        · exact Or.inr (Or.inl ⟨v, hvseen, by
            rw [List.map_cons]
            exact List.mem_cons_of_mem _ hvm⟩)
        · exact Or.inr (Or.inr (by rw [hfil]; exact hnd))
      · rintro (⟨q, hq, hE⟩ | ⟨v, hvseen, hvm⟩ | hnd)
        · rcases List.mem_cons.mp hq with hqp | hqr
          · exact absurd (hqp ▸ hE) h1
          · exact Or.inl ⟨q, hqr, hE⟩
        · rw [List.map_cons] at hvm
          rcases List.mem_cons.mp hvm with hveq | hvr
          · exact absurd ((hveq.trans hval) ▸ hvseen) hseen
          · exact Or.inr (Or.inl ⟨v, hvseen, hvr⟩)
        · rw [hfil] at hnd
          exact Or.inr (Or.inr hnd)

/-- C4: the board-level contradiction check `is_wrong()` is the OR over all
regions of the region-level check, and it is true iff some region has an
empty cell with an empty candidate set or a non-zero value occurring at two
positions of the region. -/
theorem isWrong_iff_region_contradiction (s : Sudoku) :
    s.isWrong = s.regions.any (fun reg => regionNotPossible s.cells reg ∅) ∧
    (s.isWrong = true ↔ ∃ reg ∈ s.regions, specRegionContradiction s.cells reg) := by
  refine ⟨rfl, ?_⟩
  unfold Sudoku.isWrong
  rw [List.any_eq_true]
  refine exists_congr fun reg => ?_
  rw [regionNotPossible_eq_true_iff s.cells reg ∅ (Finset.not_mem_empty 0)]
  unfold specRegionContradiction
  simp

theorem updateGrid_apply (g : Grid) (p : Coord) (f : Cell → Cell) (r c : Nat) :
    updateGrid g p f r c = if r = p.1 ∧ c = p.2 then f (g p.1 p.2) else g r c :=
  rfl

theorem removePossibleValue_idem (cl : Cell) (v : Nat) :
    (cl.removePossibleValue v).removePossibleValue v = cl.removePossibleValue v := by
  simp [Cell.removePossibleValue, List.filter_filter]

theorem intersectPossibleValues_idem (cl : Cell) (values : Finset Nat) :
    (cl.intersectPossibleValues values).intersectPossibleValues values
      = cl.intersectPossibleValues values := by
  simp [Cell.intersectPossibleValues, List.filter_filter]

theorem foldl_updateGrid_apply (f : Cell → Cell) (hidem : ∀ cl, f (f cl) = f cl)
    (reg : List Coord) (g : Grid) (r c : Nat) :
    (reg.foldl (fun g q => updateGrid g q f) g) r c
      = if (r, c) ∈ reg then f (g r c) else g r c := by
  induction reg generalizing g with
  | nil => simp
  | cons q rest ih =>
    rw [List.foldl_cons, ih]
    by_cases hq : r = q.1 ∧ c = q.2
    · have hqc : (r, c) = q := by
        obtain ⟨h1, h2⟩ := hq
        cases q
        simp [h1, h2]
      have hup : updateGrid g q f r c = f (g r c) := by
        rw [updateGrid_apply, if_pos hq, ← hq.1, ← hq.2]
      by_cases hmem : (r, c) ∈ rest
      · rw [if_pos hmem, if_pos (List.mem_cons_of_mem q hmem), hup, hidem]
      · rw [if_neg hmem, if_pos (by rw [hqc]; exact List.mem_cons_self q rest), hup]
    · have hne : (r, c) ≠ q := by
        intro h
        cases h
        exact hq ⟨rfl, rfl⟩
      have hup : updateGrid g q f r c = g r c := by
        rw [updateGrid_apply, if_neg hq]
      by_cases hmem : (r, c) ∈ rest
      · rw [if_pos hmem, if_pos (List.mem_cons_of_mem q hmem), hup]
      · rw [if_neg hmem, if_neg (by simp [List.mem_cons, hne, hmem]), hup]

theorem regionRemoveIfMem_apply (reg : List Coord) (p : Coord) (v : Nat)
    (g : Grid) (r c : Nat) :
    regionRemoveIfMem reg p v g r c
      = if p ∈ reg ∧ (r, c) ∈ reg then (g r c).removePossibleValue v
        else g r c := by
  unfold regionRemoveIfMem
  by_cases hp : p ∈ reg
  · rw [if_pos hp,
      foldl_updateGrid_apply _ (fun cl => removePossibleValue_idem cl v)]
    by_cases hm : (r, c) ∈ reg
    · rw [if_pos hm, if_pos ⟨hp, hm⟩]
    · rw [if_neg hm, if_neg (fun h => hm h.2)]
  · rw [if_neg hp, if_neg (fun h => hp h.1)]

theorem removeFromAllRegions_apply (regions : List (List Coord)) (p : Coord)
    (v : Nat) (g : Grid) (r c : Nat) :
    removeFromAllRegions regions p v g r c
      = if ∃ reg ∈ regions, p ∈ reg ∧ (r, c) ∈ reg
        then (g r c).removePossibleValue v else g r c := by
  induction regions generalizing g with
  | nil => simp [removeFromAllRegions]
  | cons reg rest ih =>
    unfold removeFromAllRegions at ih ⊢
    rw [List.foldl_cons, ih]
    by_cases h1 : p ∈ reg ∧ (r, c) ∈ reg
    · have hcons : ∃ rg ∈ reg :: rest, p ∈ rg ∧ (r, c) ∈ rg :=
        ⟨reg, List.mem_cons_self reg rest, h1⟩
      by_cases h2 : ∃ rg ∈ rest, p ∈ rg ∧ (r, c) ∈ rg
      · rw [if_pos h2, regionRemoveIfMem_apply, if_pos h1,
          removePossibleValue_idem, if_pos hcons]
      · rw [if_neg h2, regionRemoveIfMem_apply, if_pos h1, if_pos hcons]
    · by_cases h2 : ∃ rg ∈ rest, p ∈ rg ∧ (r, c) ∈ rg
      · have hcons : ∃ rg ∈ reg :: rest, p ∈ rg ∧ (r, c) ∈ rg := by
          obtain ⟨rg, hrg, hin⟩ := h2
          exact ⟨rg, List.mem_cons_of_mem reg hrg, hin⟩
        rw [if_pos h2, regionRemoveIfMem_apply, if_neg h1, if_pos hcons]
      · have hcons : ¬ ∃ rg ∈ reg :: rest, p ∈ rg ∧ (r, c) ∈ rg := by
          rintro ⟨rg, hrg, hin⟩
          rcases List.mem_cons.mp hrg with heq | hmem
          · exact h1 (heq ▸ hin)
          · exact h2 ⟨rg, hmem, hin⟩
        rw [if_neg h2, regionRemoveIfMem_apply, if_neg h1, if_neg hcons]

/-- C5: a successful `set_cell_value(row, col, v)` with `v ∈ {1..N}` removes
`v` from the candidate set of every other cell sharing a region with
`(row, col)`, and leaves every cell sharing no region with `(row, col)`
entirely unchanged (value and candidate set). -/
theorem setCellValue_removes_and_frames (maxV : Nat) (s s2 : Sudoku)
    (row column v : Nat) (tag : String) (hv1 : 1 ≤ v) (hvN : v ≤ s.size)
    (hok : setCellValue maxV s row column v tag = .ok s2) :
    (∀ r c, ¬(r = row ∧ c = column) →
      (∃ reg ∈ s.regions, (row, column) ∈ reg ∧ (r, c) ∈ reg) →
        v ∉ (s2.cells r c).possible_values) ∧
    (∀ r c, ¬(r = row ∧ c = column) →
      ¬(∃ reg ∈ s.regions, (row, column) ∈ reg ∧ (r, c) ∈ reg) →
        s2.cells r c = s.cells r c) := by
  simp only [setCellValue] at hok
  split at hok
  case isFalse => exact absurd hok (by simp)
  case isTrue hrange =>
    split at hok
    case h_1 => exact absurd hok (by simp)
    case h_2 cell2 hset =>
      rw [Except.ok.injEq] at hok
      have hcells : s2.cells = removeFromAllRegions s.regions (row, column) v
          (updateGrid s.cells (row, column) (fun _ => cell2)) := by
        rw [← hok]
      constructor
      · intro r c _hne hshared
        rw [hcells, removeFromAllRegions_apply, if_pos hshared]
        simp [Cell.removePossibleValue, List.mem_filter]
      · intro r c hne hnoshare
        rw [hcells, removeFromAllRegions_apply, if_neg hnoshare,
          updateGrid_apply, if_neg hne]

theorem removePossibleValue_value (cl : Cell) (v : Nat) :
    (cl.removePossibleValue v).value = cl.value := rfl

theorem intersectPossibleValues_value (cl : Cell) (values : Finset Nat) :
    (cl.intersectPossibleValues values).value = cl.value := rfl

theorem removeFromAllRegions_value (regions : List (List Coord)) (p : Coord)
    (v : Nat) (g : Grid) (r c : Nat) :
    (removeFromAllRegions regions p v g r c).value = (g r c).value := by
  rw [removeFromAllRegions_apply]
  split
  · rfl
  · rfl

theorem regionValuesLeft_mem (g : Grid) (reg : List Coord) (x : Nat) :
    x ∈ regionValuesLeft g reg ↔
      x ∈ Finset.Icc 1 reg.length ∧ ∀ q ∈ reg, (g q.1 q.2).value ≠ x := by
  unfold regionValuesLeft
  have aux : ∀ (l : List Coord) (init : Finset Nat),
      x ∈ l.foldl (fun vs p => vs.erase (g p.1 p.2).value) init ↔
        x ∈ init ∧ ∀ q ∈ l, (g q.1 q.2).value ≠ x := by
    intro l
    induction l with
    | nil => intro init; simp
    | cons q rest ih =>
      intro init
      rw [List.foldl_cons, ih]
      rw [Finset.mem_erase]
      constructor
      · rintro ⟨⟨hne, hin⟩, hrest⟩
        refine ⟨hin, ?_⟩
        intro q2 hq2
        rcases List.mem_cons.mp hq2 with hh | ht
        · rw [hh]
          exact fun he => hne he.symm
        · exact hrest q2 ht
      · rintro ⟨hin, hall⟩
        exact ⟨⟨fun he => hall q (List.mem_cons_self q rest) he.symm, hin⟩,
          fun q2 hq2 => hall q2 (List.mem_cons_of_mem q hq2)⟩
  exact aux reg (Finset.Icc 1 reg.length)

theorem regionValuesLeft_congr (g1 g2 : Grid) (reg : List Coord)
    (h : ∀ q ∈ reg, (g1 q.1 q.2).value = (g2 q.1 q.2).value) :
    regionValuesLeft g1 reg = regionValuesLeft g2 reg := by
  unfold regionValuesLeft
  have aux : ∀ (l : List Coord) (init : Finset Nat),
      (∀ q ∈ l, (g1 q.1 q.2).value = (g2 q.1 q.2).value) →
      l.foldl (fun vs p => vs.erase (g1 p.1 p.2).value) init
        = l.foldl (fun vs p => vs.erase (g2 p.1 p.2).value) init := by
    intro l
    induction l with
    | nil => intro init _; rfl
    | cons q rest ih =>
      intro init hl
      rw [List.foldl_cons, List.foldl_cons, hl q (List.mem_cons_self q rest),
        ih _ (fun x hx => hl x (List.mem_cons_of_mem q hx))]
  exact aux reg _ h

theorem regionIntersectFold_apply (values : Finset Nat) (reg : List Coord)
    (g : Grid) (r c : Nat) :
    regionIntersectFold values reg g r c
      = if (r, c) ∈ reg ∧ (g r c).value = 0
        then (g r c).intersectPossibleValues values else g r c := by
  induction reg generalizing g with
  | nil => simp [regionIntersectFold]
  | cons q rest ih =>
    unfold regionIntersectFold at ih ⊢
    rw [List.foldl_cons]
    by_cases hq0 : (g q.1 q.2).value = 0
    · rw [if_pos hq0, ih]
      by_cases hqc : r = q.1 ∧ c = q.2
      · have hrcq : (r, c) = q := by
          obtain ⟨e1, e2⟩ := hqc
          cases q
          simp [e1, e2]
        have hup : updateGrid g q (fun cl => cl.intersectPossibleValues values) r c
            = (g r c).intersectPossibleValues values := by
          rw [updateGrid_apply, if_pos hqc, ← hqc.1, ← hqc.2]
        have hval0 : (g r c).value = 0 := by
          rw [hqc.1, hqc.2]
          exact hq0
        rw [if_pos (show (r, c) ∈ q :: rest ∧ (g r c).value = 0 from
          ⟨hrcq ▸ List.mem_cons_self q rest, hval0⟩)]
        by_cases hmem : (r, c) ∈ rest
        · rw [if_pos ⟨hmem, by rw [hup, intersectPossibleValues_value]; exact hval0⟩,
            hup, intersectPossibleValues_idem]
        · rw [if_neg (fun hcon => hmem hcon.1), hup]
      · have hup : updateGrid g q (fun cl => cl.intersectPossibleValues values) r c
            = g r c := by
          rw [updateGrid_apply, if_neg hqc]
        rw [hup]
        have hrcq : (r, c) ≠ q := by
          intro h
          cases h
          exact hqc ⟨rfl, rfl⟩
        by_cases hcond : (r, c) ∈ rest ∧ (g r c).value = 0
        · rw [if_pos hcond,
            if_pos ⟨List.mem_cons_of_mem q hcond.1, hcond.2⟩]
        · rw [if_neg hcond, if_neg ?_]
          rintro ⟨hm, hv0⟩
          rcases List.mem_cons.mp hm with hh | ht
          · exact hrcq hh
          · exact hcond ⟨ht, hv0⟩
    · rw [if_neg hq0, ih]
      by_cases hcond : (r, c) ∈ rest ∧ (g r c).value = 0
      · rw [if_pos hcond, if_pos ⟨List.mem_cons_of_mem q hcond.1, hcond.2⟩]
      · rw [if_neg hcond, if_neg ?_]
        rintro ⟨hm, hv0⟩
        rcases List.mem_cons.mp hm with hh | ht
        · cases hh
          exact hq0 hv0
        · exact hcond ⟨ht, hv0⟩

/-- Witness for C5: assigning 1 at the top-left cell of the empty 4-by-4
board. -/
theorem setCellValue_removes_and_frames_witness :
    (1 ≤ 1 ∧ 1 ≤ empty4.size ∧
      setCellValue 4 empty4 0 0 1 "w" = .ok empty4Assigned) ∧
    (∀ r c, ¬(r = 0 ∧ c = 0) →
      (∃ reg ∈ empty4.regions, ((0 : Nat), (0 : Nat)) ∈ reg ∧ (r, c) ∈ reg) →
        1 ∉ (empty4Assigned.cells r c).possible_values) ∧
    (∀ r c, ¬(r = 0 ∧ c = 0) →
      ¬(∃ reg ∈ empty4.regions, ((0 : Nat), (0 : Nat)) ∈ reg ∧ (r, c) ∈ reg) →
        empty4Assigned.cells r c = empty4.cells r c) :=
  ⟨⟨le_refl 1, by decide, rfl⟩,
    setCellValue_removes_and_frames 4 empty4 empty4Assigned 0 0 1 "w"
      (le_refl 1) (by decide) rfl⟩

theorem regionUpdateGrid_apply (reg : List Coord) (g : Grid) (r c : Nat) :
    regionUpdateGrid reg g r c
      = if (r, c) ∈ reg ∧ (g r c).value = 0
        then (g r c).intersectPossibleValues (regionValuesLeft g reg)
        else g r c := by
  unfold regionUpdateGrid
  exact regionIntersectFold_apply _ reg g r c

theorem regionUpdateGrid_congr (reg : List Coord) (g1 g2 : Grid)
    (h : ∀ r c, g1 r c = g2 r c) (r c : Nat) :
    regionUpdateGrid reg g1 r c = regionUpdateGrid reg g2 r c := by
  rw [regionUpdateGrid_apply, regionUpdateGrid_apply, h r c,
    regionValuesLeft_congr g1 g2 reg (fun q _ => by rw [h q.1 q.2])]

theorem foldRegions_congr (L : List (List Coord)) (g1 g2 : Grid)
    (h : ∀ r c, g1 r c = g2 r c) (r c : Nat) :
    (L.foldl (fun g reg => regionUpdateGrid reg g) g1) r c
      = (L.foldl (fun g reg => regionUpdateGrid reg g) g2) r c := by
  induction L generalizing g1 g2 with
  | nil => exact h r c
  | cons reg rest ih =>
    rw [List.foldl_cons, List.foldl_cons]
    exact ih (regionUpdateGrid reg g1) (regionUpdateGrid reg g2)
      (fun r2 c2 => regionUpdateGrid_congr reg g1 g2 h r2 c2)

theorem updateAllRegions_noop (s : Sudoku)
    (h : ∀ reg ∈ s.regions, ∀ q ∈ reg, (s.cells q.1 q.2).value = 0 →
      ∀ v ∈ (s.cells q.1 q.2).possible_values, v ∈ regionValuesLeft s.cells reg) :
    ∀ r c, (updateAllRegions s).cells r c = s.cells r c := by
  have aux : ∀ (L : List (List Coord)) (g : Grid),
      (∀ reg ∈ L, ∀ q ∈ reg, (g q.1 q.2).value = 0 →
        ∀ v ∈ (g q.1 q.2).possible_values, v ∈ regionValuesLeft g reg) →
      ∀ r c, (L.foldl (fun g reg => regionUpdateGrid reg g) g) r c = g r c := by
    intro L
    induction L with
    | nil => intro g _ r c; rfl
    | cons reg rest ih =>
      intro g hL r c
      rw [List.foldl_cons]
      have hreg : ∀ r2 c2, regionUpdateGrid reg g r2 c2 = g r2 c2 := by
        intro r2 c2
        rw [regionUpdateGrid_apply]
        by_cases hcond : (r2, c2) ∈ reg ∧ (g r2 c2).value = 0
        · rw [if_pos hcond]
          have hsub := hL reg (List.mem_cons_self reg rest) (r2, c2)
            hcond.1 hcond.2
          unfold Cell.intersectPossibleValues
          have hfix : (g r2 c2).possible_values.filter
              (fun x => x ∈ regionValuesLeft g reg)
              = (g r2 c2).possible_values :=
            List.filter_eq_self.mpr (fun a ha => by
              simpa using hsub a ha)
          rw [hfix]
        · rw [if_neg hcond]
      rw [foldRegions_congr rest (regionUpdateGrid reg g) g hreg r c]
      exact ih g (fun rg hrg => hL rg (List.mem_cons_of_mem reg hrg)) r c
  intro r c
  exact aux s.regions s.cells
    (fun reg hreg => h reg hreg) r c

theorem setCellValue_ok_eq (maxV : Nat) (s : Sudoku) (row column v : Nat)
    (tag : String) (hr : row < s.size) (hc : column < s.size)
    (hed : (s.cells row column).editable = true) (hv : v ≤ maxV) :
    setCellValue maxV s row column v tag = .ok
      { s with
        cells := removeFromAllRegions s.regions (row, column) v
          (updateGrid s.cells (row, column)
            (fun _ => assignedCell (s.cells row column) v))
        undo_redo := s.undo_redo.addAction row column
          (s.cells row column).value v tag } := by
  have hset : (s.cells row column).setValue maxV v
      = .ok (assignedCell (s.cells row column) v) := by
    unfold Cell.setValue assignedCell
    rw [if_neg (by rw [hed]; simp), if_neg (by omega)]
    by_cases hv0 : v = 0
    · rw [if_pos hv0, if_pos hv0]
    · rw [if_neg hv0, if_neg hv0]
  simp only [setCellValue,
    if_pos (show row < s.size ∧ column < s.size from ⟨hr, hc⟩), hset]

/-- C6 (the caller-side protocol is modelled from the spec, §6): assigning a
value, then performing the undo protocol (pop the action, apply the old
value directly to the cell, refresh all candidates), then performing the
redo protocol, restores a board whose every cell has the same value and the
same candidate set as immediately after the original assignment.  The board
is assumed candidate-consistent (as factory boards are, and
`set_cell_value` keeps them). -/
theorem assign_undo_redo_roundtrip (maxV : Nat) (s : Sudoku)
    (row column v : Nat) (tag : String)
    (hr : row < s.size) (hc : column < s.size)
    (hed : (s.cells row column).editable = true) (hv : v ≤ maxV)
    (hcons : candidatesConsistent s) (hclean : filledCellsClean s) :
    ∀ s1, setCellValue maxV s row column v tag = .ok s1 →
      (undoProtocol s1).isSome = true ∧
      (∀ s2, undoProtocol s1 = some s2 →
        (redoProtocol s2).isSome = true ∧
        (∀ s3, redoProtocol s2 = some s3 →
          ∀ r c, (s3.cells r c).value = (s1.cells r c).value ∧
            (s3.cells r c).possible_values
              = (s1.cells r c).possible_values)) := by
  intro s1 h1
  rw [setCellValue_ok_eq maxV s row column v tag hr hc hed hv,
    Except.ok.injEq] at h1
  have hcells1 : s1.cells = removeFromAllRegions s.regions (row, column) v
      (updateGrid s.cells (row, column)
        (fun _ => assignedCell (s.cells row column) v)) := by
    rw [← h1]
  have hregions1 : s1.regions = s.regions := by rw [← h1]
  have hundo1 : s1.undo_redo = ⟨s.undo_redo.undo ++
      [(row, column, (s.cells row column).value, v, tag)], []⟩ := by
    rw [← h1]
    rfl
  -- pointwise facts about the assigned board
  have hg1val : ∀ r c, (s1.cells r c).value
      = if r = row ∧ c = column then v else (s.cells r c).value := by
    intro r c
    rw [hcells1, removeFromAllRegions_value, updateGrid_apply]
    by_cases h : r = row ∧ c = column
    · rw [if_pos h, if_pos h]
      unfold assignedCell
      split <;> rfl
    · rw [if_neg h, if_neg h]
  have hg1poss_sub : ∀ r c, ¬(r = row ∧ c = column) →
      ∀ x ∈ (s1.cells r c).possible_values,
        x ∈ (s.cells r c).possible_values := by
    intro r c hne x hx
    rw [hcells1, removeFromAllRegions_apply] at hx
    by_cases hsh : ∃ reg ∈ s.regions, (row, column) ∈ reg ∧ (r, c) ∈ reg
    · rw [if_pos hsh, updateGrid_apply, if_neg hne] at hx
      exact List.mem_of_mem_filter hx
    · rw [if_neg hsh, updateGrid_apply, if_neg hne] at hx
      exact hx
  have hg1poss_shared : ∀ r c,
      (∃ reg ∈ s.regions, (row, column) ∈ reg ∧ (r, c) ∈ reg) →
      ∀ x ∈ (s1.cells r c).possible_values, x ≠ v := by
    intro r c hsh x hx
    rw [hcells1, removeFromAllRegions_apply, if_pos hsh] at hx
    have := List.of_mem_filter hx
    simpa using this
  have hg1poss_target : ∀ x ∈ (s1.cells row column).possible_values,
      v = 0 ∧ x ∈ (s.cells row column).possible_values := by
    intro x hx
    rw [hcells1, removeFromAllRegions_apply] at hx
    have hup : updateGrid s.cells (row, column)
        (fun _ => assignedCell (s.cells row column) v) row column
        = assignedCell (s.cells row column) v := by
      rw [updateGrid_apply, if_pos ⟨rfl, rfl⟩]
    by_cases hv0 : v = 0
    · refine ⟨hv0, ?_⟩
      by_cases hsh : ∃ reg ∈ s.regions, (row, column) ∈ reg ∧
          (row, column) ∈ reg
      · rw [if_pos hsh, hup] at hx
        have hx2 := List.mem_of_mem_filter hx
        unfold assignedCell at hx2
        rw [if_pos hv0] at hx2
        exact hx2
      · rw [if_neg hsh, hup] at hx
        unfold assignedCell at hx
        rw [if_pos hv0] at hx
        exact hx
    · exfalso
      have hemp : (assignedCell (s.cells row column) v).possible_values = [] := by
        unfold assignedCell
        rw [if_neg hv0]
      by_cases hsh : ∃ reg ∈ s.regions, (row, column) ∈ reg ∧
          (row, column) ∈ reg
      · rw [if_pos hsh, hup] at hx
        unfold Cell.removePossibleValue at hx
        rw [hemp] at hx
        cases hx
      · rw [if_neg hsh, hup] at hx
        rw [hemp] at hx
        cases hx
  -- the undo step
  have hpop : s1.undo_redo.undoPop
      = some ((row, column, (s.cells row column).value, v, tag),
          s.undo_redo.undo.length, 1,
          ⟨s.undo_redo.undo,
            [(row, column, (s.cells row column).value, v, tag)]⟩) := by
    rw [hundo1]
    unfold UndoRedo.undoPop
    simp [List.getLast?_concat, List.dropLast_concat]
  have hundo : undoProtocol s1 = some (updateAllRegions
      { s1 with
        undo_redo := ⟨s.undo_redo.undo,
          [(row, column, (s.cells row column).value, v, tag)]⟩
        cells := updateGrid s1.cells (row, column)
          (fun cl => { cl with value := (s.cells row column).value }) }) := by
    unfold undoProtocol
    rw [hpop]
  refine ⟨by rw [hundo]; rfl, ?_⟩
  intro s2 h2
  rw [hundo, Option.some.injEq] at h2
  -- the board fed to the first refresh
  have hvalpre2 : ∀ r c, (updateGrid s1.cells (row, column)
      (fun cl => { cl with value := (s.cells row column).value }) r c).value
      = (s.cells r c).value := by
    intro r c
    rw [updateGrid_apply]
    by_cases h : r = row ∧ c = column
    · rw [if_pos h, h.1, h.2]
    · rw [if_neg h]
      rw [hg1val, if_neg h]
  have hposspre2 : ∀ r c, (updateGrid s1.cells (row, column)
      (fun cl => { cl with value := (s.cells row column).value }) r c).possible_values
      = (s1.cells r c).possible_values := by
    intro r c
    rw [updateGrid_apply]
    by_cases h : r = row ∧ c = column
    · rw [if_pos h, h.1, h.2]
    · rw [if_neg h]
  -- the first refresh is a no-op
  have hnoop2 : ∀ r c, (s2.cells r c) = updateGrid s1.cells (row, column)
      (fun cl => { cl with value := (s.cells row column).value }) r c := by
    rw [← h2]
    refine updateAllRegions_noop _ ?_
    intro reg hreg0 q hq hq0 x hx
    have hreg : reg ∈ s.regions := by
      have hh : reg ∈ s1.regions := hreg0
      rwa [hregions1] at hh
    rw [hvalpre2] at hq0
    rw [hposspre2] at hx
    have hvleq : regionValuesLeft (updateGrid s1.cells (row, column)
        (fun cl => { cl with value := (s.cells row column).value })) reg
        = regionValuesLeft s.cells reg :=
      regionValuesLeft_congr _ _ reg (fun q2 _ => hvalpre2 q2.1 q2.2)
    rw [hvleq]
    by_cases hqt : q.1 = row ∧ q.2 = column
    · -- the assigned cell itself, back at its old (zero) value
      have hqrc : q = (row, column) := by
        obtain ⟨q1, q2⟩ := q
        rw [Prod.mk.injEq]
        exact hqt
      rw [hqrc] at hx
      obtain ⟨hv0, hxs⟩ := hg1poss_target x hx
      exact hcons reg hreg q hq hq0 x (by rw [hqrc]; exact hxs)
    · have hxs := hg1poss_sub q.1 q.2 hqt x hx
      exact hcons reg hreg q hq hq0 x hxs
  have hs2vals : ∀ r c, (s2.cells r c).value = (s.cells r c).value := by
    intro r c
    rw [hnoop2, hvalpre2]
  have hs2poss : ∀ r c, (s2.cells r c).possible_values
      = (s1.cells r c).possible_values := by
    intro r c
    rw [hnoop2, hposspre2]
  have hs2undo : s2.undo_redo = ⟨s.undo_redo.undo,
      [(row, column, (s.cells row column).value, v, tag)]⟩ := by
    rw [← h2]
    rfl
  have hs2regions : s2.regions = s.regions := by
    rw [← h2]
    exact hregions1
  -- the redo step
  have hpop2 : s2.undo_redo.redoPop
      = some ((row, column, (s.cells row column).value, v, tag),
          (s.undo_redo.undo ++
            [(row, column, (s.cells row column).value, v, tag)]).length, 0,
          ⟨s.undo_redo.undo ++
            [(row, column, (s.cells row column).value, v, tag)], []⟩) := by
    rw [hs2undo]
    unfold UndoRedo.redoPop
    simp
  have hredo : redoProtocol s2 = some (updateAllRegions
      { s2 with
        undo_redo := ⟨s.undo_redo.undo ++
          [(row, column, (s.cells row column).value, v, tag)], []⟩
        cells := updateGrid s2.cells (row, column)
          (fun cl => { cl with value := v }) }) := by
    unfold redoProtocol
    rw [hpop2]
  refine ⟨by rw [hredo]; rfl, ?_⟩
  intro s3 h3
  rw [hredo, Option.some.injEq] at h3
  have hvalpre3 : ∀ r c, (updateGrid s2.cells (row, column)
      (fun cl => { cl with value := v }) r c).value
      = (s1.cells r c).value := by
    intro r c
    rw [updateGrid_apply, hg1val]
    by_cases h : r = row ∧ c = column
    · rw [if_pos h, if_pos h]
    · rw [if_neg h, if_neg h, hs2vals]
  have hposspre3 : ∀ r c, (updateGrid s2.cells (row, column)
      (fun cl => { cl with value := v }) r c).possible_values
      = (s1.cells r c).possible_values := by
    intro r c
    rw [updateGrid_apply]
    by_cases h : r = row ∧ c = column
    · rw [if_pos h, h.1, h.2]
      exact hs2poss row column
    · rw [if_neg h]
      exact hs2poss r c
  -- the second refresh is a no-op
  have hnoop3 : ∀ r c, (s3.cells r c) = updateGrid s2.cells (row, column)
      (fun cl => { cl with value := v }) r c := by
    rw [← h3]
    refine updateAllRegions_noop _ ?_
    intro reg hreg2 q hq hq0 x hx
    have hreg : reg ∈ s.regions := by
      rw [← hs2regions]
      exact hreg2
    rw [hvalpre3] at hq0
    rw [hposspre3] at hx
    rw [regionValuesLeft_mem]
    by_cases hqt : q.1 = row ∧ q.2 = column
    · -- the assigned cell: its value in s1 is v, so here v = 0
      have hqrc : q = (row, column) := by
        obtain ⟨a1, a2⟩ := q
        rw [Prod.mk.injEq]
        exact hqt
      have hv0 : v = 0 := by
        rw [hqrc] at hq0
        rw [hg1val, if_pos ⟨rfl, rfl⟩] at hq0
        exact hq0
      rw [hqrc] at hx
      obtain ⟨_, hxs⟩ := hg1poss_target x hx
      by_cases hold : (s.cells row column).value = 0
      · have hall := hcons reg hreg (row, column)
          (by rw [← hqrc]; exact hq) hold x hxs
        rw [regionValuesLeft_mem] at hall
        refine ⟨hall.1, ?_⟩
        intro q2 hq2
        by_cases hq2t : q2.1 = row ∧ q2.2 = column
        · have hq2rc : q2 = (row, column) := by
            obtain ⟨a1, a2⟩ := q2
            rw [Prod.mk.injEq]
            exact hq2t
          rw [hq2rc, hvalpre3, hg1val, if_pos ⟨rfl, rfl⟩, hv0]
          have hx1 : 1 ≤ x := (Finset.mem_Icc.mp hall.1).1
          omega
        · rw [hvalpre3, hg1val, if_neg hq2t]
          exact hall.2 q2 hq2
      · exfalso
        have := hclean reg hreg (row, column) (by rw [← hqrc]; exact hq) hold
        rw [this] at hxs
        cases hxs
    · -- any other empty cell
      have hq0s : (s.cells q.1 q.2).value = 0 := by
        rw [hg1val, if_neg hqt] at hq0
        exact hq0
      have hxs := hg1poss_sub q.1 q.2 hqt x hx
      have hall := hcons reg hreg q hq hq0s x hxs
      rw [regionValuesLeft_mem] at hall
      refine ⟨hall.1, ?_⟩
      intro q2 hq2
      by_cases hq2t : q2.1 = row ∧ q2.2 = column
      · have hq2rc : q2 = (row, column) := by
          obtain ⟨a1, a2⟩ := q2
          rw [Prod.mk.injEq]
          exact hq2t
        rw [hq2rc, hvalpre3, hg1val, if_pos ⟨rfl, rfl⟩]
        have hshared : ∃ rg ∈ s.regions, (row, column) ∈ rg ∧
            (q.1, q.2) ∈ rg := ⟨reg, hreg, hq2rc ▸ hq2, by
              cases q
              exact hq⟩
        have := hg1poss_shared q.1 q.2 hshared x hx
        exact fun he => this he.symm
      · rw [hvalpre3, hg1val, if_neg hq2t]
        exact hall.2 q2 hq2
  -- conclusion
  intro r c
  constructor
  · rw [hnoop3, hvalpre3]
  · rw [hnoop3, hposspre3]

/-- Witness for C6: assign 1 at the top-left cell of the empty 4-by-4 board,
undo, redo. -/
theorem assign_undo_redo_roundtrip_witness :
    (candidatesConsistent empty4 ∧ filledCellsClean empty4 ∧
      (empty4.cells 0 0).editable = true ∧
      setCellValue 4 empty4 0 0 1 "w" = .ok empty4Assigned ∧
      undoProtocol empty4Assigned = some empty4Undone ∧
      redoProtocol empty4Undone = some empty4Redone) ∧
    (∀ r c, (empty4Redone.cells r c).value = (empty4Assigned.cells r c).value ∧
      (empty4Redone.cells r c).possible_values
        = (empty4Assigned.cells r c).possible_values) :=
  ⟨⟨by decide, by decide, by decide, rfl, rfl, rfl⟩, by
    have h := assign_undo_redo_roundtrip 4 empty4 0 0 1 "w" (by decide)
      (by decide) (by decide) (by decide) (by decide) (by decide)
      empty4Assigned rfl
    exact (h.2 empty4Undone rfl).2 empty4Redone rfl⟩

theorem sudokuM_error_bind {α β : Type} (e : SErr × Sudoku)
    (f : α → SudokuM β) : ((Except.error e : SudokuM α) >>= f) = Except.error e :=
  rfl

theorem sudokuM_ok_bind {α β : Type} (a : α) (f : α → SudokuM β) :
    ((Except.ok a : SudokuM α) >>= f) = f a :=
  rfl

theorem buildChildren_spec (maxV : Nat) (t : Sudoku) (p : Coord) :
    ∀ (l : List Nat) (out : List Sudoku),
      buildChildren maxV t p l = .ok out →
      out.length = l.length ∧
      ∀ i (hl : i < l.length) (ho : i < out.length),
        mkNodeBoard maxV t p.1 p.2 (l.get ⟨i, hl⟩) = .ok (out.get ⟨i, ho⟩) := by
  intro l
  induction l with
  | nil =>
    intro out h
    unfold buildChildren at h
    rw [Except.ok.injEq] at h
    subst h
    exact ⟨rfl, fun i hl => absurd hl (by simp)⟩
  | cons v vs ih =>
    intro out h
    unfold buildChildren at h
    cases hmk : mkNodeBoard maxV t p.1 p.2 v with
    | error e =>
      rw [hmk, sudokuM_error_bind] at h
      exact Except.noConfusion h
    | ok child =>
      rw [hmk, sudokuM_ok_bind] at h
      cases hrest : buildChildren maxV t p vs with
      | error e =>
        rw [hrest, sudokuM_error_bind] at h
        exact Except.noConfusion h
      | ok rest =>
        rw [hrest, sudokuM_ok_bind] at h
        have hout : out = child :: rest := by
          have : Except.ok (child :: rest)
              = (Except.ok out : SudokuM (List Sudoku)) := h
          rw [Except.ok.injEq] at this
          exact this.symm
        subst hout
        obtain ⟨hlen, hidx⟩ := ih rest hrest
        refine ⟨by simp [hlen], ?_⟩
        intro i hl ho
        match i with
        | 0 => exact hmk
        | Nat.succ j =>
          exact hidx j (by simpa using hl) (by simpa [hlen] using hl)

/-- C1: when the propagated node board is neither solved nor contradictory,
the node builds one child per candidate of the first empty cell in
row-major order — each child the (deep-copied) board with that candidate
pre-assigned, in candidate order — and the node's result is exactly the
first child's recursive result: the remaining siblings `cs` do not appear
in the outcome, so a failing first subtree is never followed by a try of
the next sibling. -/
theorem node_first_child_only (maxV pfuel fuel : Nat) (s t : Sudoku)
    (p : Coord) (c : Sudoku) (cs : List Sudoku)
    (hprop : nodePropagate maxV pfuel s = .ok t)
    (hsolved : t.isSolved = false) (hwrong : t.isWrong = false)
    (hfe : firstEmptyCell t = some p)
    (hch : childrenBoards maxV t p = .ok (c :: cs)) :
    nodeSolve maxV pfuel (fuel + 1) s = nodeSolve maxV pfuel fuel c ∧
    (c :: cs).length = (candidateList t p).length ∧
    (∀ i (hl : i < (candidateList t p).length) (ho : i < (c :: cs).length),
      mkNodeBoard maxV t p.1 p.2 ((candidateList t p).get ⟨i, hl⟩)
        = .ok ((c :: cs).get ⟨i, ho⟩)) := by
  obtain ⟨hlen, hidx⟩ := buildChildren_spec maxV t p (candidateList t p)
    (c :: cs) hch
  refine ⟨?_, hlen, hidx⟩
  show (do
      let t2 ← nodePropagate maxV pfuel s
      if t2.isSolved then .ok (some t2)
      else if t2.isWrong then .ok none
      else
        match firstEmptyCell t2 with
        | none => .ok none
        | some p2 => do
          let children ← childrenBoards maxV t2 p2
          match children with
          | [] => .ok none
          | c2 :: _ => nodeSolve maxV pfuel fuel c2) = nodeSolve maxV pfuel fuel c
  rw [hprop]
  show (if t.isSolved then (.ok (some t) : SudokuM (Option Sudoku))
      else if t.isWrong then .ok none
      else
        match firstEmptyCell t with
        | none => .ok none
        | some p2 => do
          let children ← childrenBoards maxV t p2
          match children with
          | [] => .ok none
          | c2 :: _ => nodeSolve maxV pfuel fuel c2) = nodeSolve maxV pfuel fuel c
  rw [hsolved, hwrong, hfe]
  show (do
      let children ← childrenBoards maxV t p
      match children with
      | [] => (.ok none : SudokuM (Option Sudoku))
      | c2 :: _ => nodeSolve maxV pfuel fuel c2) = nodeSolve maxV pfuel fuel c
  rw [hch, sudokuM_ok_bind]

theorem solverRound_eq (maxV : Nat) (s : Sudoku) :
    solverRound maxV s = (do
      let r1 ← onePossibilitySolve maxV false s
      if r1.1.isSolved then .ok (r1.1, false)
      else do
        let r2 ← exclusionSolve maxV false r1.1
        if r2.1.isSolved then .ok (r2.1, false)
        else .ok (r2.1, r1.2 || r2.2)) := by
  unfold solverRound patternsWithoutBruteForce
  cases honep : onePossibilitySolve maxV false s with
  | error e =>
    simp [List.foldlM_cons, honep, sudokuM_error_bind, sudokuM_ok_bind]
  | ok r1 =>
    by_cases hsol1 : r1.1.isSolved
    · simp [List.foldlM_cons, List.foldlM_nil, honep, hsol1, sudokuM_ok_bind]
    · cases hexc : exclusionSolve maxV false r1.1 with
      | error e =>
        simp [List.foldlM_cons, List.foldlM_nil, honep, hexc, hsol1,
          sudokuM_error_bind, sudokuM_ok_bind]
      | ok r2 =>
        by_cases hsol2 : r2.1.isSolved
        · simp [List.foldlM_cons, List.foldlM_nil, honep, hexc, hsol1, hsol2,
            sudokuM_ok_bind]
        · simp [List.foldlM_cons, List.foldlM_nil, honep, hexc, hsol1, hsol2,
            sudokuM_ok_bind]

/-- Witness for C1: the empty 4-by-4 board, whose root node has four
children (candidates 1..4 at cell (0,0)) and recurses only into the
first. -/
theorem node_first_child_only_witness :
    (nodePropagate 4 1 empty4 = .ok empty4 ∧
      empty4.isSolved = false ∧ empty4.isWrong = false ∧
      firstEmptyCell empty4 = some (0, 0) ∧
      childrenBoards 4 empty4 (0, 0)
        = .ok [empty4Child 1, empty4Child 2, empty4Child 3, empty4Child 4]) ∧
    nodeSolve 4 1 (5 + 1) empty4 = nodeSolve 4 1 5 (empty4Child 1) :=
  ⟨⟨rfl, by decide, by decide, by decide, rfl⟩,
    (node_first_child_only 4 1 5 empty4 empty4 (0, 0) (empty4Child 1)
      [empty4Child 2, empty4Child 3, empty4Child 4]
      rfl (by decide) (by decide) (by decide) rfl).1⟩

/-- C7: `SudokuSolver.solve` applies the deduction rules once per round in
round-robin order (the first conjunct characterises one round: the patterns
run in order, the round breaks out as soon as the board is solved — the
second pattern is not consulted — and otherwise reports whether any rule
changed anything); a solved board ends the loop successfully at once (second
conjunct, with brute force skipped and `true` returned); a round reporting a
change restarts the loop (third conjunct); a round reporting no change on an
unsolved board exits the loop and hands the board to `BruteForce`, and the
call returns `is_solved()` of the final board (fourth conjunct); on search
success `BruteForce` overwrites the original board by replaying the solved
clone's action log via `copy_from` (fifth conjunct). -/
theorem solver_round_robin_structure (maxV pfuel nfuel : Nat) :
    (∀ s, solverRound maxV s = (do
      let r1 ← onePossibilitySolve maxV false s
      if r1.1.isSolved then .ok (r1.1, false)
      else do
        let r2 ← exclusionSolve maxV false r1.1
        if r2.1.isSolved then .ok (r2.1, false)
        else .ok (r2.1, r1.2 || r2.2))) ∧
    (∀ wf s t ch, onePossibilitySolve maxV false s = .ok (t, ch) →
      t.isSolved = true →
      solverSolve maxV pfuel nfuel (wf + 1) s = .ok (t, true)) ∧
    (∀ wf s t, solverRound maxV s = .ok (t, true) →
      solverLoop maxV (wf + 1) s = solverLoop maxV wf t) ∧
    (∀ wf s t, solverRound maxV s = .ok (t, false) → t.isSolved = false →
      solverSolve maxV pfuel nfuel (wf + 1) s
        = (do
            let r ← bruteForceSolve maxV pfuel nfuel t
            .ok (r.1, r.1.isSolved))) ∧
    (∀ t sol, t.isWrong = false →
      nodeSolve maxV pfuel nfuel t = .ok (some sol) →
      bruteForceSolve maxV pfuel nfuel t
        = (do
            let s2 ← copyFrom maxV t sol
            .ok (s2, true))) := by
  refine ⟨solverRound_eq maxV, ?_, ?_, ?_, ?_⟩
  · intro wf s t ch honep hsol
    have hround : solverRound maxV s = .ok (t, false) := by
      rw [solverRound_eq, honep, sudokuM_ok_bind]
      simp [hsol]
    have hloop : solverLoop maxV (wf + 1) s = .ok t := by
      have h1 : solverLoop maxV (wf + 1) s = (do
          let r ← solverRound maxV s
          if r.2 then solverLoop maxV wf r.1 else .ok r.1) := rfl
      rw [h1, hround, sudokuM_ok_bind]
      simp
    unfold solverSolve
    rw [hloop, sudokuM_ok_bind]
    simp [hsol]
  · intro wf s t hround
    have h1 : solverLoop maxV (wf + 1) s = (do
        let r ← solverRound maxV s
        if r.2 then solverLoop maxV wf r.1 else .ok r.1) := rfl
    rw [h1, hround, sudokuM_ok_bind]
    simp
  · intro wf s t hround hsol
    have hloop : solverLoop maxV (wf + 1) s = .ok t := by
      have h1 : solverLoop maxV (wf + 1) s = (do
          let r ← solverRound maxV s
          if r.2 then solverLoop maxV wf r.1 else .ok r.1) := rfl
      rw [h1, hround, sudokuM_ok_bind]
      simp
    unfold solverSolve
    rw [hloop, sudokuM_ok_bind]
    simp [hsol]
  · intro t sol hwr hnode
    unfold bruteForceSolve
    rw [if_neg (show ¬ t.isWrong = true by rw [hwr]; simp), hnode,
      sudokuM_ok_bind]

/-- Witness for C7: the four instantiable conjuncts at concrete boards (the
solved 4-by-4 board, the one-deduction board `nearly4`, and the empty
4-by-4 board). -/
theorem solver_round_robin_structure_witness :
    (onePossibilitySolve 4 false solved4 = .ok (solved4, false) ∧
      solved4.isSolved = true ∧
      solverSolve 4 1 1 (0 + 1) solved4 = .ok (solved4, true)) ∧
    (solverRound 4 nearly4 = .ok (nearly4After, true) ∧
      solverLoop 4 (0 + 1) nearly4 = solverLoop 4 0 nearly4After) ∧
    (solverRound 4 empty4 = .ok (empty4, false) ∧ empty4.isSolved = false ∧
      solverSolve 4 1 1 (0 + 1) empty4
        = (do
            let r ← bruteForceSolve 4 1 1 empty4
            .ok (r.1, r.1.isSolved))) ∧
    (solved4.isWrong = false ∧ nodeSolve 4 1 1 solved4 = .ok (some solved4) ∧
      bruteForceSolve 4 1 1 solved4
        = (do
            let s2 ← copyFrom 4 solved4 solved4
            .ok (s2, true))) := by
  have h := solver_round_robin_structure 4 1 1
  refine ⟨⟨rfl, by decide, h.2.1 0 solved4 solved4 false rfl (by decide)⟩,
    ⟨rfl, h.2.2.1 0 nearly4 nearly4After rfl⟩,
    ⟨rfl, by decide, h.2.2.2.1 0 empty4 empty4 rfl (by decide)⟩,
    ⟨by decide, rfl, h.2.2.2.2 solved4 solved4 (by decide) rfl⟩⟩

end SudokuSpec
